import Mathlib

/-!
Verification of the entry transformation and aggregation pipeline of
toggl-export (`src/main.js`, function `processEntries` together with its
helper `formatDuration`).

The pipeline is embedded shallowly:
* a raw Toggl entry is a record of the fields `processEntries` reads;
* `moment(entry.start).startOf('day')` is modelled on epoch milliseconds
  (local-time truncation to midnight);
* the regex match `description.match(/^#(\d+) (.*)$/)` is modelled by
  `matchDescription` (JavaScript semantics: `\d` is `[0-9]`, `.` matches
  any character except a line terminator, `$` anchors at the end of the
  string);
* the `Map` of repositories is modelled as an association list queried
  with `List.lookup`;
* lodash `_.groupBy` / `_.values` is modelled by `groupBy`, which keeps
  groups in first-insertion order and members in input order.  The keys
  built by `processEntries` always contain the character `$`, hence are
  never array-index-like, so JavaScript objects indeed enumerate them in
  insertion order.
-/

namespace TogglExport

/-- A raw Toggl time entry: the fields of the report rows that
`processEntries` reads. `start` is the start timestamp in epoch
milliseconds, `dur` the duration in milliseconds. -/
structure RawEntry where
  client : String
  project : String
  description : String
  start : Nat
  dur : Nat
deriving DecidableEq, Repr

/-- The structured entry built for a raw entry that parses
(`processEntries`, first map). `date` is the start-of-day timestamp in
epoch milliseconds. -/
structure ParsedEntry where
  repository : String
  id : String
  issueNumber : String
  comment : String
  date : Nat
  dur : Nat
deriving DecidableEq, Repr

/-- The output record of `processEntries`: the first member of a group,
with `dur` overwritten by the group total, `duration` the formatted
label and `dateTime` the formatted date. -/
structure AggregatedEntry where
  repository : String
  id : String
  issueNumber : String
  comment : String
  date : Nat
  dur : Nat
  duration : String
  dateTime : String
deriving DecidableEq, Repr

def msPerDay : Nat := 86400000

/-- Models `moment(entry.start).startOf('day')`: truncate a timestamp to
midnight (modelled with a fixed-offset local time). -/
def startOfDay (t : Nat) : Nat := (t / msPerDay) * msPerDay

/-- JavaScript line terminators, which `.` in a regex does not match. -/
def isJsLineTerm (c : Char) : Bool :=
  c == '\n' || c == '\r' || c == Char.ofNat 0x2028 || c == Char.ofNat 0x2029

/-- Models `description.match(/^#(\d+) (.*)$/)`, returning the two capture
groups on success.  `\d+` is the maximal run of ASCII digits after `#`
(backtracking cannot shorten it, since the following literal is a space
and a digit is not a space); `(.*)$` requires the remainder to contain
no line terminator. -/
def matchDescription (s : String) : Option (String × String) :=
  match s.data with
  | '#' :: rest =>
    if (rest.takeWhile Char.isDigit).isEmpty then none
    else
      match rest.dropWhile Char.isDigit with
      | ' ' :: comment =>
        if comment.any isJsLineTerm then none
        else some (String.mk (rest.takeWhile Char.isDigit), String.mk comment)
      | _ => none
  | _ => none

/-- The body of the first `entries.map` in `processEntries`: build the
`"client/project"` key, look it up in the repository map, match the
description, and produce the structured entry when both succeed
(`repositoryId != null && description != null`), `null` otherwise. -/
def parseEntry (repositories : List (String × String)) (entry : RawEntry) :
    Option ParsedEntry :=
  let repository := entry.client ++ "/" ++ entry.project
  let repositoryId := repositories.lookup repository
  let description := matchDescription entry.description
  match repositoryId, description with
  | some rid, some d =>
    some { repository := repository, id := rid, issueNumber := d.1,
           comment := d.2, date := startOfDay entry.start, dur := entry.dur }
  | _, _ => none

/-- Decimal digit characters of a natural number (most significant
first; empty for `0`), with explicit fuel so the recursion is
structural. -/
def natCharsCore : Nat → Nat → List Char
  | _, 0 => []
  | 0, _ + 1 => []
  | fuel + 1, n + 1 =>
    natCharsCore fuel ((n + 1) / 10) ++ [Char.ofNat (48 + (n + 1) % 10)]

/-- Decimal digit characters of a natural number (most significant
first; empty for `0`). -/
def natChars (n : Nat) : List Char := natCharsCore n n

/-- Model of the stringification of a (midnight-truncated) moment date,
as performed by `Array.prototype.join` on `[.., entry.date]`: an
injective, `$`-free rendering of the model timestamp. -/
def momentToString (d : Nat) : String := String.mk (natChars d)

/-- Model of `entry[0].date.format()` (moment's ISO-8601 rendering of
the model timestamp). -/
def momentFormat (d : Nat) : String := String.mk (natChars d)

/-- Models `[entry.repository, entry.issueNumber, entry.comment, entry.date].join('$')`:
the grouping key of `processEntries`. -/
def entryKey (e : ParsedEntry) : String :=
  e.repository ++ "$" ++ e.issueNumber ++ "$" ++ e.comment ++ "$" ++
    momentToString e.date

/-- Insert one element into the group of its key, or start a new group
at the end (JavaScript objects keep non-index string keys in insertion
order). A group is stored as (key, first member, later members). -/
def addToGroups {α : Type} (groups : List (String × α × List α)) (k : String)
    (x : α) : List (String × α × List α) :=
  match groups with
  | [] => [(k, x, [])]
  | (k2, h, t) :: rest =>
    if k2 = k then (k2, h, t ++ [x]) :: rest
    else (k2, h, t) :: addToGroups rest k x

/-- Models `_.values(_.groupBy(l, f))` (with the group keys kept):
groups in first-insertion order, members in input order. -/
def groupBy {α : Type} (f : α → String) (l : List α) :
    List (String × α × List α) :=
  l.foldl (fun gs x => addToGroups gs (f x) x) []

/-- Models `Math.round(num / den)` for non-negative integers `num` and positive
`den`: round half up. -/
def mathRound (num den : Nat) : Nat := (2 * num + den) / (2 * den)

/-- Models `sprintf('%02d', n)`: decimal rendering left-padded with `0` to
width two. -/
def sprintf02 (n : Nat) : String :=
  if n < 10 then "0" ++ Nat.repr n else Nat.repr n

/-- Embeds `formatDuration` from `src/main.js`:
minutes by `Math.round(ms / 60000)`, then `sprintf('%dh %02dm', h, m)`. -/
def formatDuration (milliSeconds : Nat) : String :=
  let minutes := mathRound milliSeconds 60000
  let h := minutes / 60
  let m := minutes % 60
  Nat.repr h ++ "h " ++ sprintf02 m ++ "m"

/-- The body of `groupedEntries.map` in `processEntries`: sum the
durations of the group and return its first member with `dur`,
`duration` and `dateTime` set. -/
def aggregateGroup (h : ParsedEntry) (t : List ParsedEntry) : AggregatedEntry :=
  let totalDuration := ((h :: t).map (fun e => e.dur)).sum
  { repository := h.repository, id := h.id, issueNumber := h.issueNumber,
    comment := h.comment, date := h.date, dur := totalDuration,
    duration := formatDuration totalDuration, dateTime := momentFormat h.date }

/-- The aggregation half of `processEntries`: group the parsed entries
by `entryKey` and aggregate each group. -/
def aggregate (filteredEntries : List ParsedEntry) : List AggregatedEntry :=
  (groupBy entryKey filteredEntries).map (fun g => aggregateGroup g.2.1 g.2.2)

/-- Embeds `processEntries(entries, repositories)` from `src/main.js`:
parse every entry, drop the `null`s (`_.compact`), group by the
`$`-joined key and aggregate each group. -/
def processEntries (entries : List RawEntry)
    (repositories : List (String × String)) : List AggregatedEntry :=
  let parsedEntries := entries.map (parseEntry repositories)
  let filteredEntries := parsedEntries.filterMap id
  aggregate filteredEntries

/-- The duration-formatting rule as worded by the spec (§4.2 step 4):
`totalMinutes = round(ms / 60000)` (here round half away from zero,
which on non-negative input is `(ms + 30000) / 60000`), then
`hours = floor(totalMinutes / 60)`, `minutes = totalMinutes mod 60`,
rendered as `"{hours}h {minutes:02d}m"`. -/
def specFormatDuration (ms : Nat) : String :=
  let totalMinutes := (ms + 30000) / 60000
  let hours := totalMinutes / 60
  let minutes := totalMinutes % 60
  Nat.repr hours ++ "h " ++
    (if minutes < 10 then "0" ++ Nat.repr minutes else Nat.repr minutes) ++ "m"

/-- Keys of a list, in first-occurrence order, appended after the
already-seen keys `ks`. -/
def keysAfter (ks : List String) (l : List String) : List String :=
  l.foldl (fun a k => if k ∈ a then a else a ++ [k]) ks

/-- The distinct keys of `l` under `f`, in order of first occurrence. -/
def firstKeys {α : Type} (f : α → String) (l : List α) : List String :=
  keysAfter [] (l.map f)

/-- Removal of leading and trailing whitespace (the spec's "trimmed",
§3), stated on the character list so it evaluates. -/
def specTrim (s : String) : String :=
  String.mk
    (((s.data.dropWhile Char.isWhitespace).reverse.dropWhile
        Char.isWhitespace).reverse)

/-- Decimal value of a digit string (left inverse of `natChars`). -/
def digitsVal (l : List Char) : Nat :=
  l.foldl (fun a c => 10 * a + (c.toNat - 48)) 0

/-- The members of the group of key `k`, first member first
(empty when no group has key `k`). -/
def groupMems {α : Type} : List (String × α × List α) → String → List α
  | [], _ => []
  | (kg, h, t) :: rest, k => if kg = k then h :: t else groupMems rest k

/-! ## Claim theorems -/

/-- C4: for a raw entry with description `"#42 fix the thing"`,
client `"acme"`, project `"widgets"`, and a repository index mapping
`"acme/widgets"` to `"R1"`, parsing yields a ParsedEntry with
issueNumber `"42"` (kept as a string), comment `"fix the thing"`, and
repository id `"R1"`. -/
theorem c4_parsing_extraction :
    parseEntry [("acme/widgets", "R1")]
      { client := "acme", project := "widgets",
        description := "#42 fix the thing", start := 0, dur := 1000 } =
    some { repository := "acme/widgets", id := "R1", issueNumber := "42",
           comment := "fix the thing", date := 0, dur := 1000 } := by
  decide

/-- C8: aggregating an empty input list returns an empty output
list (a normal result, the aggregator is total), and the whole pipeline
on an empty entry list returns the empty list. -/
theorem c8_empty_input :
    aggregate [] = [] ∧
      ∀ repositories : List (String × String),
        processEntries [] repositories = [] :=
  ⟨rfl, fun _ => rfl⟩

/-- C5: a raw entry whose description matches the `#N comment`
pattern but whose `"client/project"` key is absent from the repository
index yields no ParsedEntry, regardless of its other fields. -/
theorem c5_unknown_repository :
    ∀ (repositories : List (String × String)) (e : RawEntry),
      (matchDescription e.description).isSome = true →
      repositories.lookup (e.client ++ "/" ++ e.project) = none →
      parseEntry repositories e = none := by
  intro repositories e _ hlook
  simp only [parseEntry, hlook]

/-- Witness for C5 at a concrete input. -/
theorem c5_unknown_repository_witness :
    parseEntry []
      { client := "a", project := "b", description := "#1 x",
        start := 0, dur := 0 } = none :=
  c5_unknown_repository []
    { client := "a", project := "b", description := "#1 x",
      start := 0, dur := 0 } (by decide) rfl

/-- C6: for every non-negative millisecond value, `formatDuration`
renders `round(ms / 60000)` minutes as `"{hours}h {minutes:02d}m"` with
minutes zero-padded to two digits and hours unpadded (the spec's
formatting rule); in particular `59500` formats as `"0h 01m"` and `0`
as `"0h 00m"`. -/
theorem c6_format_duration :
    (∀ ms : Nat, formatDuration ms = specFormatDuration ms) ∧
      formatDuration 59500 = "0h 01m" ∧ formatDuration 0 = "0h 00m" := by
  refine ⟨fun ms => ?_, by decide, by decide⟩
  have h : mathRound ms 60000 = (ms + 30000) / 60000 := by
    unfold mathRound
    omega
  simp [formatDuration, specFormatDuration, sprintf02, h]

/-- C1: two raw entries sharing the same (repository, issueNumber,
comment, day) key with durations 1,800,000 ms and 3,600,000 ms
aggregate into exactly one AggregatedEntry with raw duration
5,400,000 ms and formatted label `"1h 30m"`; and every AggregatedEntry
produced by the aggregator carries the formatted label of its raw
summed duration. -/
theorem c1_aggregation_sums :
    processEntries
        [{ client := "acme", project := "widgets",
           description := "#42 fix the thing", start := 0, dur := 1800000 },
         { client := "acme", project := "widgets",
           description := "#42 fix the thing", start := 0, dur := 3600000 }]
        [("acme/widgets", "R1")] =
      [{ repository := "acme/widgets", id := "R1", issueNumber := "42",
         comment := "fix the thing", date := 0, dur := 5400000,
         duration := "1h 30m", dateTime := "" }] ∧
    ∀ (l : List ParsedEntry) (a : AggregatedEntry),
      a ∈ aggregate l → a.duration = formatDuration a.dur := by
  constructor
  · decide
  · intro l a ha
    simp only [aggregate] at ha
    obtain ⟨g, _, rfl⟩ := List.mem_map.1 ha
    rfl

/-- Witness for C1's universal part at a concrete input. -/
theorem c1_aggregation_sums_witness :
    (aggregateGroup
        { repository := "acme/widgets", id := "R1", issueNumber := "42",
          comment := "fix", date := 0, dur := 60000 } []).duration =
      formatDuration
        (aggregateGroup
          { repository := "acme/widgets", id := "R1", issueNumber := "42",
            comment := "fix", date := 0, dur := 60000 } []).dur :=
  c1_aggregation_sums.2
    [{ repository := "acme/widgets", id := "R1", issueNumber := "42",
       comment := "fix", date := 0, dur := 60000 }] _ (by decide)

/-- C9: the pipeline is a deterministic function of the values of
its inputs: its output depends on the repository map only through
lookups, so any two maps answering every lookup identically (in
particular, the same unmodified map on a second run) produce equal
outputs. -/
theorem c9_deterministic :
    ∀ (entries : List RawEntry) (repos1 repos2 : List (String × String)),
      (∀ k, repos1.lookup k = repos2.lookup k) →
      processEntries entries repos1 = processEntries entries repos2 := by
  intro entries repos1 repos2 h
  have hp : parseEntry repos1 = parseEntry repos2 := by
    funext e
    simp only [parseEntry, h]
  simp only [processEntries, hp]

/-- Witness for C9 at a concrete input. -/
theorem c9_deterministic_witness :
    processEntries
        [{ client := "a", project := "b", description := "#1 x",
           start := 0, dur := 5 }]
        [("a/b", "R1")] =
      processEntries
        [{ client := "a", project := "b", description := "#1 x",
           start := 0, dur := 5 }]
        [("a/b", "R1"), ("a/b", "R9")] :=
  c9_deterministic _ [("a/b", "R1")] [("a/b", "R1"), ("a/b", "R9")]
    (by
      intro k
      cases hbk : k == "a/b" <;> simp [List.lookup, hbk])

theorem isDigit_space : Char.isDigit ' ' = false := by decide

theorem mk_data_eq (s : String) : String.mk s.data = s := rfl

theorem takeWhile_digits_append (l1 cs : List Char)
    (h1 : ∀ c ∈ l1, c.isDigit = true) :
    (l1 ++ ' ' :: cs).takeWhile Char.isDigit = l1 ∧
    (l1 ++ ' ' :: cs).dropWhile Char.isDigit = ' ' :: cs := by
  induction l1 with
  | nil =>
    constructor <;>
      simp [List.takeWhile_cons, List.dropWhile_cons, isDigit_space]
  | cons c l ih =>
    have hc : c.isDigit = true := h1 c (by simp)
    have hh := ih (fun x hx => h1 x (by simp [hx]))
    constructor <;>
      simp [List.takeWhile_cons, List.dropWhile_cons, hc, hh.1, hh.2]

/-- Characterization of a successful regex match: the description is
`#`, the digit run, one space, and the comment, with at least one digit
and no line terminator in the comment. -/
theorem matchDescription_eq_some {s num com : String} :
    matchDescription s = some (num, com) ↔
      s.data = '#' :: (num.data ++ ' ' :: com.data) ∧
      num.data ≠ [] ∧ (∀ c ∈ num.data, c.isDigit = true) ∧
      (∀ c ∈ com.data, isJsLineTerm c = false) := by
  constructor
  · intro h
    unfold matchDescription at h
    split at h
    next rest hdata =>
      split at h
      next => simp at h
      next hne =>
        split at h
        next comment hdrop =>
          split at h
          next => simp at h
          next hterm =>
            injection h with hpair
            rw [Prod.ext_iff] at hpair
            obtain ⟨h1, h2⟩ := hpair
            subst h1
            subst h2
            dsimp only
            refine ⟨?_, ?_, ?_, ?_⟩
            · rw [hdata, ← hdrop, List.takeWhile_append_dropWhile]
            · simpa using hne
            · intro c hc
              have := List.all_takeWhile (p := Char.isDigit) (l := rest)
              rw [List.all_eq_true] at this
              exact this c hc
            · intro c hc
              rw [Bool.not_eq_true, List.any_eq_false] at hterm
              simpa using hterm c hc
        next => simp at h
    next => simp at h
  · rintro ⟨hdata, hne, hdig, hterm⟩
    have htw := takeWhile_digits_append num.data com.data hdig
    have hanyf : com.data.any isJsLineTerm = false := by
      rw [List.any_eq_false]
      intro x hx
      simp [hterm x hx]
    unfold matchDescription
    rw [hdata]
    simp [htw.1, htw.2, hne, hanyf, mk_data_eq]

/-- A match succeeds exactly when the description decomposes as
`#`, a nonempty digit run, one space, and a line-terminator-free
remainder. -/
theorem matchDescription_isSome {s : String} :
    (matchDescription s).isSome = true ↔
      ∃ ds cs : List Char,
        s.data = '#' :: (ds ++ ' ' :: cs) ∧ ds ≠ [] ∧
        (∀ c ∈ ds, c.isDigit = true) ∧
        (∀ c ∈ cs, isJsLineTerm c = false) := by
  constructor
  · intro h
    obtain ⟨⟨num, com⟩, hm⟩ := Option.isSome_iff_exists.1 h
    obtain ⟨h1, h2, h3, h4⟩ := matchDescription_eq_some.1 hm
    exact ⟨num.data, com.data, h1, h2, h3, h4⟩
  · rintro ⟨ds, cs, h1, h2, h3, h4⟩
    have hm : matchDescription s = some (String.mk ds, String.mk cs) :=
      matchDescription_eq_some.2 ⟨h1, h2, h3, h4⟩
    simp [hm]

/-- Lemma: `parseEntry` succeeds exactly when the description matches and the
repository key resolves. -/
theorem parseEntry_isSome (repositories : List (String × String))
    (e : RawEntry) :
    (parseEntry repositories e).isSome = true ↔
      ((matchDescription e.description).isSome = true ∧
        (repositories.lookup (e.client ++ "/" ++ e.project)).isSome = true) := by
  cases hl : repositories.lookup (e.client ++ "/" ++ e.project) <;>
    cases hm : matchDescription e.description <;>
      simp [parseEntry, hl, hm]

/-- C3 (counterexample): the claim's pattern demands one or more
characters after the space, but `(.*)` also accepts zero: description
`"#1 "` parses although no nonempty-comment decomposition exists.
Conversely `"#1 a\nb"` satisfies the claim's pattern (with the key
present) yet does not parse, because `.` does not match a newline. -/
theorem c3_counterexample :
    ((parseEntry [("a/b", "R1")]
        { client := "a", project := "b", description := "#1 ",
          start := 0, dur := 0 }).isSome = true ∧
      ¬∃ ds cs : List Char,
        ("#1 " : String).data = '#' :: (ds ++ ' ' :: cs) ∧ ds ≠ [] ∧
        (∀ c ∈ ds, c.isDigit = true) ∧ cs ≠ []) ∧
    ((∃ ds cs : List Char,
        ("#1 a\nb" : String).data = '#' :: (ds ++ ' ' :: cs) ∧ ds ≠ [] ∧
        (∀ c ∈ ds, c.isDigit = true) ∧ cs ≠ []) ∧
      (([("a/b", "R1")] : List (String × String)).lookup "a/b").isSome = true ∧
      parseEntry [("a/b", "R1")]
        { client := "a", project := "b", description := "#1 a\nb",
          start := 0, dur := 0 } = none) := by
  refine ⟨⟨by decide, ?_⟩, ⟨['1'], ['a', '\n', 'b'], by decide, by decide,
    by decide, by decide⟩, by decide, by decide⟩
  rintro ⟨ds, cs, h, hne, _, hcs⟩
  have hlen := congrArg List.length h
  have h1 : 1 ≤ ds.length := by
    cases ds with
    | nil => exact absurd rfl hne
    | cons d ds2 => simp
  have h2 : cs = [] := by
    rw [← List.length_eq_zero]
    simp [List.length_append] at hlen
    omega
  exact hcs h2

/-- C3 (amended): a raw entry yields a ParsedEntry iff its
description decomposes as `#`, one or more digits, a single space, and
zero or more further characters none of which is a line terminator, AND
the `"client/project"` key is present in the repository index. -/
theorem c3_parser_iff :
    ∀ (repositories : List (String × String)) (e : RawEntry),
      (parseEntry repositories e).isSome = true ↔
        ((∃ ds cs : List Char,
            e.description.data = '#' :: (ds ++ ' ' :: cs) ∧ ds ≠ [] ∧
            (∀ c ∈ ds, c.isDigit = true) ∧
            (∀ c ∈ cs, isJsLineTerm c = false)) ∧
          (repositories.lookup (e.client ++ "/" ++ e.project)).isSome = true) := by
  intro repositories e
  rw [parseEntry_isSome, matchDescription_isSome]

/-- C7 (counterexample): the comment is carried verbatim, not
trimmed: description `"#1 a "` yields the comment `"a "`, which keeps
its trailing space, while the trimmed remainder is `"a"`. -/
theorem c7_counterexample :
    (parseEntry [("a/b", "R1")]
        { client := "a", project := "b", description := "#1 a ",
          start := 0, dur := 0 }).map ParsedEntry.comment = some "a " ∧
      specTrim "a " = "a" ∧ ("a " : String) ≠ "a" := by
  refine ⟨by decide, by decide, by decide⟩

/-- C7 (amended): for every raw entry that yields a ParsedEntry,
the comment equals the remaining description after the issue tag and
its single separating space, verbatim (no trimming): the description is
exactly `"#" ++ issueNumber ++ " " ++ comment`. -/
theorem c7_comment_verbatim :
    ∀ (repositories : List (String × String)) (e : RawEntry)
      (p : ParsedEntry),
      parseEntry repositories e = some p →
      e.description = "#" ++ p.issueNumber ++ " " ++ p.comment := by
  intro repositories e p h
  rcases hl : repositories.lookup (e.client ++ "/" ++ e.project) with _ | rid <;>
    rcases hm : matchDescription e.description with _ | ⟨num, com⟩ <;>
      simp [parseEntry, hl, hm] at h
  subst h
  obtain ⟨hd, _, _, _⟩ := matchDescription_eq_some.1 hm
  apply String.ext
  rw [hd]
  simp [String.data_append]

/-- Witness for C7's amended theorem at a concrete input. -/
theorem c7_comment_verbatim_witness :
    ("#1 a " : String) = "#" ++ "1" ++ " " ++ "a " :=
  c7_comment_verbatim [("a/b", "R1")]
    { client := "a", project := "b", description := "#1 a ",
      start := 0, dur := 0 }
    { repository := "a/b", id := "R1", issueNumber := "1",
      comment := "a ", date := 0, dur := 0 } (by decide)

theorem digitsVal_append (l : List Char) (c : Char) :
    digitsVal (l ++ [c]) = 10 * digitsVal l + (c.toNat - 48) := by
  simp [digitsVal, List.foldl_append]

theorem toNat_ofNat_digit (m : Nat) (h : m < 10) :
    (Char.ofNat (48 + m)).toNat = 48 + m := by
  interval_cases m <;> decide

theorem digitsVal_natCharsCore :
    ∀ (fuel n : Nat), n ≤ fuel → digitsVal (natCharsCore fuel n) = n := by
  intro fuel
  induction fuel with
  | zero =>
    intro n hn
    interval_cases n
    rfl
  | succ fuel ih =>
    intro n hn
    match n with
    | 0 => rfl
    | m + 1 =>
      rw [natCharsCore, digitsVal_append,
        ih ((m + 1) / 10) (by omega),
        toNat_ofNat_digit ((m + 1) % 10) (by omega)]
      omega

theorem natChars_inj {m n : Nat} (h : natChars m = natChars n) : m = n := by
  have h1 : digitsVal (natChars m) = m := digitsVal_natCharsCore m m le_rfl
  have h2 : digitsVal (natChars n) = n := digitsVal_natCharsCore n n le_rfl
  rw [← h1, h, h2]

theorem natCharsCore_mem_digit :
    ∀ (fuel n : Nat) (c : Char), c ∈ natCharsCore fuel n →
      48 ≤ c.toNat ∧ c.toNat ≤ 57 := by
  intro fuel
  induction fuel with
  | zero =>
    intro n c hc
    cases n <;> simp [natCharsCore] at hc
  | succ fuel ih =>
    intro n c hc
    match n with
    | 0 => simp [natCharsCore] at hc
    | m + 1 =>
      rw [natCharsCore] at hc
      rcases List.mem_append.1 hc with hrec | hlast
      · exact ih _ c hrec
      · have hm : (m + 1) % 10 < 10 := by omega
        have := toNat_ofNat_digit ((m + 1) % 10) hm
        simp at hlast
        subst hlast
        omega

theorem momentToString_no_dollar (d : Nat) :
    '$' ∉ (momentToString d).data := by
  intro hc
  have h := natCharsCore_mem_digit d d '$' hc
  have : ('$').toNat = 36 := rfl
  omega

/-- Data of the `$`-joined grouping key. -/
theorem entryKey_data (e : ParsedEntry) :
    (entryKey e).data =
      e.repository.data ++ '$' :: (e.issueNumber.data ++ '$' ::
        (e.comment.data ++ '$' :: (momentToString e.date).data)) := by
  simp [entryKey, String.data_append]

/-- Splitting at an unambiguous separator: if neither prefix contains
`$`, equal joins give equal parts. -/
theorem append_dollar_inj :
    ∀ {a c : List Char} {b d : List Char}, '$' ∉ a → '$' ∉ c →
      a ++ '$' :: b = c ++ '$' :: d → a = c ∧ b = d := by
  intro a
  induction a with
  | nil =>
    intro c b d _ hc h
    cases c with
    | nil => simpa using h
    | cons y c2 =>
      rw [List.nil_append] at h
      injection h with h1 h2
      exact absurd (h1 ▸ List.mem_cons_self y c2) hc
  | cons x a2 ih =>
    intro c b d ha hc h
    cases c with
    | nil =>
      rw [List.nil_append] at h
      injection h with h1 h2
      exact absurd (h1 ▸ List.mem_cons_self x a2) ha
    | cons y c2 =>
      injection h with h1 h2
      subst h1
      have := ih (fun hx => ha (List.mem_cons_of_mem x hx))
        (fun hx => hc (List.mem_cons_of_mem x hx)) h2
      exact ⟨by rw [this.1], this.2⟩

theorem addToGroups_keys {α : Type} (gs : List (String × α × List α))
    (k : String) (x : α) :
    (addToGroups gs k x).map Prod.fst =
      if k ∈ gs.map Prod.fst then gs.map Prod.fst
      else gs.map Prod.fst ++ [k] := by
  induction gs with
  | nil => simp [addToGroups]
  | cons g rest ih =>
    obtain ⟨k2, h, t⟩ := g
    by_cases hk : k2 = k
    · subst hk
      simp [addToGroups]
    · have hne : ¬k = k2 := fun he => hk he.symm
      simp only [addToGroups, if_neg hk, List.map_cons, ih, List.mem_cons, hne,
        false_or]
      split <;> simp

theorem foldlGroups_keys {α : Type} (f : α → String) :
    ∀ (l : List α) (gs : List (String × α × List α)),
      ((l.foldl (fun gs2 x => addToGroups gs2 (f x) x) gs).map Prod.fst) =
        keysAfter (gs.map Prod.fst) (l.map f) := by
  intro l
  induction l with
  | nil => intro gs; rfl
  | cons x xs ih =>
    intro gs
    rw [List.foldl_cons, ih (addToGroups gs (f x) x), addToGroups_keys,
      List.map_cons]
    rfl

/-- The group keys are the distinct key values, in first-occurrence
order. -/
theorem groupBy_keys {α : Type} (f : α → String) (l : List α) :
    (groupBy f l).map Prod.fst = firstKeys f l :=
  foldlGroups_keys f l []

theorem keysAfter_nodup :
    ∀ (l ks : List String), ks.Nodup → (keysAfter ks l).Nodup := by
  intro l
  induction l with
  | nil => exact fun ks h => h
  | cons k rest ih =>
    intro ks h
    show List.Nodup (keysAfter (if k ∈ ks then ks else ks ++ [k]) rest)
    apply ih
    by_cases hk : k ∈ ks
    · simpa [hk]
    · simp [hk, List.nodup_append, h]

/-- Distinct groups carry distinct keys. -/
theorem groupBy_keys_nodup {α : Type} (f : α → String) (l : List α) :
    ((groupBy f l).map Prod.fst).Nodup := by
  rw [groupBy_keys]
  exact keysAfter_nodup _ [] (by simp)

theorem groupMems_addToGroups {α : Type} :
    ∀ (gs : List (String × α × List α)) (k k2 : String) (x : α),
      groupMems (addToGroups gs k x) k2 =
        groupMems gs k2 ++ (if k = k2 then [x] else []) := by
  intro gs k k2 x
  induction gs with
  | nil =>
    by_cases hk : k = k2 <;> simp [addToGroups, groupMems, hk]
  | cons g rest ih =>
    obtain ⟨kg, h, t⟩ := g
    by_cases hkg : kg = k
    · subst hkg
      by_cases hk2 : kg = k2
      · subst hk2
        simp [addToGroups, groupMems]
      · have hne : ¬kg = k2 := hk2
        simp [addToGroups, groupMems, hne]
    · by_cases hk2 : kg = k2
      · subst hk2
        have hne : ¬k = kg := fun he => hkg he.symm
        simp [addToGroups, hkg, groupMems, hne]
      · simp [addToGroups, hkg, groupMems, hk2, ih]

theorem groupMems_foldl {α : Type} (f : α → String) :
    ∀ (l : List α) (gs : List (String × α × List α)) (k : String),
      groupMems (l.foldl (fun gs2 x => addToGroups gs2 (f x) x) gs) k =
        groupMems gs k ++ l.filter (fun x => f x == k) := by
  intro l
  induction l with
  | nil => simp
  | cons x xs ih =>
    intro gs k
    rw [List.foldl_cons, ih, groupMems_addToGroups, List.filter_cons]
    by_cases hf : f x = k <;> simp [hf]

/-- The members of the group of key `k` are exactly the input entries
whose key is `k`, in input order. -/
theorem groupMems_groupBy {α : Type} (f : α → String) (l : List α)
    (k : String) :
    groupMems (groupBy f l) k = l.filter (fun x => f x == k) := by
  rw [groupBy, groupMems_foldl]
  rfl

theorem groupMems_of_mem {α : Type} :
    ∀ (gs : List (String × α × List α)), (gs.map Prod.fst).Nodup →
      ∀ g ∈ gs, groupMems gs g.1 = g.2.1 :: g.2.2 := by
  intro gs
  induction gs with
  | nil =>
    intro _ g hg
    simp at hg
  | cons g0 rest ih =>
    intro hnd g hg
    obtain ⟨k0, h0, t0⟩ := g0
    rcases List.mem_cons.1 hg with rfl | hmem
    · simp [groupMems]
    · have hk0 : k0 ∉ rest.map Prod.fst := (List.nodup_cons.1 hnd).1
      have hg1 : g.1 ∈ rest.map Prod.fst := List.mem_map_of_mem Prod.fst hmem
      have hne : ¬k0 = g.1 := fun he => hk0 (he ▸ hg1)
      simp only [groupMems, if_neg hne]
      exact ih (List.nodup_cons.1 hnd).2 g hmem

/-- Every group of `groupBy` lists exactly the input entries with its
key, in input order; in particular the stored first member is the
group's first entry in input order. -/
theorem mem_groupBy_eq_filter {α : Type} (f : α → String) (l : List α)
    (g : String × α × List α) (hg : g ∈ groupBy f l) :
    g.2.1 :: g.2.2 = l.filter (fun x => f x == g.1) := by
  rw [← groupMems_groupBy f l g.1,
    groupMems_of_mem _ (groupBy_keys_nodup f l) g hg]

/-- C2 (counterexample): grouping uses the `$`-joined key string,
so two parsed entries with distinct 4-tuples can land in the same
group: repositories `"a/b"` (comment `"2$x"`) and `"a/b$1"` (comment
`"x"`) join to the same key and aggregate into one single entry. -/
theorem c2_counterexample :
    (processEntries
        [{ client := "a", project := "b", description := "#1 2$x",
           start := 0, dur := 5 },
         { client := "a", project := "b$1", description := "#2 x",
           start := 0, dur := 7 }]
        [("a/b", "R1"), ("a/b$1", "R2")]).length = 1 ∧
      (parseEntry [("a/b", "R1"), ("a/b$1", "R2")]
          { client := "a", project := "b", description := "#1 2$x",
            start := 0, dur := 5 }).map ParsedEntry.repository =
        some "a/b" ∧
      (parseEntry [("a/b", "R1"), ("a/b$1", "R2")]
          { client := "a", project := "b$1", description := "#2 x",
            start := 0, dur := 7 }).map ParsedEntry.repository =
        some "a/b$1" := by
  refine ⟨by decide, by decide, by decide⟩

/-- C2 (amended): grouping is by equality of the `$`-joined key
string; when no string component of either entry contains the
separator `$`, two parsed entries share a group exactly when all four
components (repository, issueNumber, comment, day) are equal; and the
groups carry pairwise distinct keys (one output entry per distinct key
string). -/
theorem c2_grouping_key :
    (∀ e1 e2 : ParsedEntry,
      '$' ∉ e1.repository.data → '$' ∉ e1.issueNumber.data →
      '$' ∉ e1.comment.data → '$' ∉ e2.repository.data →
      '$' ∉ e2.issueNumber.data → '$' ∉ e2.comment.data →
      (entryKey e1 = entryKey e2 ↔
        (e1.repository = e2.repository ∧
          e1.issueNumber = e2.issueNumber ∧
          e1.comment = e2.comment ∧ e1.date = e2.date))) ∧
    ∀ (l : List ParsedEntry),
      ((groupBy entryKey l).map Prod.fst).Nodup := by
  constructor
  · intro e1 e2 hr1 hi1 hc1 hr2 hi2 hc2
    constructor
    · intro h
      have hd := congrArg String.data h
      rw [entryKey_data, entryKey_data] at hd
      obtain ⟨hrep, hd⟩ := append_dollar_inj hr1 hr2 hd
      obtain ⟨hiss, hd⟩ := append_dollar_inj hi1 hi2 hd
      obtain ⟨hcom, hd⟩ := append_dollar_inj hc1 hc2 hd
      refine ⟨String.ext hrep, String.ext hiss, String.ext hcom, ?_⟩
      exact natChars_inj hd
    · rintro ⟨h1, h2, h3, h4⟩
      simp [entryKey, h1, h2, h3, h4]
  · intro l
    exact groupBy_keys_nodup entryKey l

/-- Witness for C2's amended key equivalence at concrete inputs. -/
theorem c2_grouping_key_witness :
    (entryKey { repository := "a/b", id := "R1", issueNumber := "1",
                comment := "x", date := 0, dur := 5 } =
      entryKey { repository := "a/b", id := "R1", issueNumber := "1",
                 comment := "x", date := 86400000, dur := 7 }) ↔
      ("a/b" = "a/b" ∧ "1" = "1" ∧ "x" = "x" ∧ (0 : Nat) = 86400000) :=
  c2_grouping_key.1
    { repository := "a/b", id := "R1", issueNumber := "1",
      comment := "x", date := 0, dur := 5 }
    { repository := "a/b", id := "R1", issueNumber := "1",
      comment := "x", date := 86400000, dur := 7 }
    (by decide) (by decide) (by decide) (by decide) (by decide) (by decide)

/-- C10: the group keys of the aggregation are the distinct key values
in order of first occurrence in the input; each group lists exactly the
input entries with its key, in input order, so the stored first member
is the group's first entry in input order; and every descriptive field
of an aggregated entry is taken from that first member. -/
theorem c10_group_order :
    (∀ l : List ParsedEntry,
      (groupBy entryKey l).map Prod.fst = firstKeys entryKey l) ∧
    (∀ (l : List ParsedEntry) (g : String × ParsedEntry × List ParsedEntry),
      g ∈ groupBy entryKey l →
      g.2.1 :: g.2.2 = l.filter (fun e => entryKey e == g.1)) ∧
    (∀ (h : ParsedEntry) (t : List ParsedEntry),
      (aggregateGroup h t).repository = h.repository ∧
      (aggregateGroup h t).id = h.id ∧
      (aggregateGroup h t).issueNumber = h.issueNumber ∧
      (aggregateGroup h t).comment = h.comment ∧
      (aggregateGroup h t).date = h.date) :=
  ⟨fun l => groupBy_keys entryKey l,
   fun l g hg => mem_groupBy_eq_filter entryKey l g hg,
   fun _ _ => ⟨rfl, rfl, rfl, rfl, rfl⟩⟩

/-- Witness for C10's group-membership part at a concrete input. -/
theorem c10_group_order_witness :
    [({ repository := "a/b", id := "R1", issueNumber := "1", comment := "x",
        date := 0, dur := 5 } : ParsedEntry)] =
      [({ repository := "a/b", id := "R1", issueNumber := "1", comment := "x",
          date := 0, dur := 5 } : ParsedEntry)].filter
        (fun e => entryKey e ==
          entryKey { repository := "a/b", id := "R1", issueNumber := "1",
                     comment := "x", date := 0, dur := 5 }) :=
  c10_group_order.2.1
    [{ repository := "a/b", id := "R1", issueNumber := "1", comment := "x",
       date := 0, dur := 5 }]
    (entryKey { repository := "a/b", id := "R1", issueNumber := "1",
                comment := "x", date := 0, dur := 5 },
      { repository := "a/b", id := "R1", issueNumber := "1", comment := "x",
        date := 0, dur := 5 }, [])
    (by decide)

end TogglExport
